import Mathlib

/-!
Verification of the sliding-window prediction pipeline of ORCA-SPOT
(`predict.py`): window offset arithmetic, window counting, the
threshold decision rule, softmax probability extraction, per-file error
propagation, configuration-key loading, display-time rounding, and the
batched / parallel enumeration of windows.

All definitions are shallow embeddings of the Python source; a few
components that live outside `predict.py` (the dataset length and the
data-loader reassembly discipline) are modelled from the specification
and marked as such in their doc comments.
-/

namespace OrcaSpot

/-! ## Window arithmetic (predict.py lines 211, 220-222) -/

/-- Source line 221: inside batch `i`, at batch position `n`, the window
start offset is `t_start = (i * batch_size + n) * hop`. -/
def tStart (i B n hop : ℕ) : ℕ := (i * B + n) * hop

/-- Source line 222: `t_end = min(t_start + sequence_len - 1, n_frames - 1)`. -/
def tEnd (ts seqLen nFrames : ℕ) : ℕ := min (ts + seqLen - 1) (nFrames - 1)

/-- Start offset of the window with global index `k`: `k * hop`. -/
def windowStart (k hop : ℕ) : ℕ := k * hop

/-- End offset of the window with global index `k`. -/
def windowEnd (k hop seqLen nFrames : ℕ) : ℕ :=
  tEnd (windowStart k hop) seqLen nFrames

/-- Source line 211: `stop = int(max(floor(n_frames / hop), 1))`.
Modelled from the spec: `StridedAudioDataset.__len__` (the dataset class
lives in `data/audiodataset.py`, which is not part of the sources here)
yields this same count `max(floor(n_frames / hop), 1)` of windows. -/
def numWindows (nFrames hop : ℕ) : ℕ := max (nFrames / hop) 1

/-! ## Threshold decision (predict.py line 226) -/

/-- Source line 226: `pred = int(prob >= ARGS.threshold)`. -/
def pred (p t : ℚ) : ℕ := if t ≤ p then 1 else 0

/-- Line 225: `softmax(out, dim=1)[n, 1]` for the two-class raw score
vector `[a, b]`: the softmax-normalised probability of the positive
(second) class, `exp b / (exp a + exp b)`. -/
noncomputable def softmaxPos (a b : ℝ) : ℝ :=
  Real.exp b / (Real.exp a + Real.exp b)

/-- The thresholding of line 226 applied to a real probability. -/
noncomputable def predReal (p t : ℝ) : ℕ := if t ≤ p then 1 else 0

/-! ## Per-file processing and configuration loading
(predict.py lines 160-173 and 187-232) -/

/-- The two failure kinds that can arise before / during the per-file loop:
`invalidAudio` stands for the spec's `InvalidAudioError` (missing,
undecodable or zero-length file), `keyError` for a Python `KeyError` on a
missing configuration key. -/
inductive PredictError where
  | invalidAudio
  | keyError
deriving DecidableEq

/-- An input audio file, abstracted by its processing outcome: a valid file
carries the per-window records its processing would emit, an invalid file is
one whose decoding fails. -/
inductive AudioFileInput where
  | valid (records : List ℕ)
  | invalid
deriving DecidableEq

/-- Modelled from the spec: constructing `StridedAudioDataset` (lines
189-201; the class itself lives in `data/audiodataset.py`, outside these
sources) raises `InvalidAudioError` for a missing, undecodable or
zero-length file, and otherwise the file's windows are processed into
per-window records. -/
def loadAudio : AudioFileInput → Except PredictError (List ℕ)
  | .valid rs => .ok rs
  | .invalid => .error .invalidAudio

/-- The per-file loop of lines 187-232: files are processed in order and the
loop body has no exception handler, so an error raised while processing one
file propagates out of the loop. -/
def processFiles : List AudioFileInput → Except PredictError (List (List ℕ))
  | [] => .ok []
  | f :: rest =>
    match loadAudio f with
    | .error e => .error e
    | .ok rs =>
      match processFiles rest with
      | .error e => .error e
      | .ok others => .ok (rs :: others)

/-- The `dataOpts` dictionary supplied with the model: each configuration
key is present (`some`) or absent (`none`). -/
structure DataOpts where
  sr : Option ℕ
  hop_length : Option ℕ
  n_fft : Option ℕ
  num_mels : Option ℕ
  n_freq_bins : Option ℕ
  fmin : Option ℕ
  fmax : Option ℕ
  freq_compression : Option ℕ
  min_level_db : Option ℤ
  ref_level_db : Option ℤ

/-- The fully-resolved frontend configuration built from `dataOpts`. -/
structure FrontendConfig where
  sr : ℕ
  hop_length : ℕ
  n_fft : ℕ
  n_freq_bins : ℕ
  fmin : ℕ
  fmax : ℕ
  freq_compression : ℕ
  min_level_db : ℤ
  ref_level_db : ℤ

/-- Lines 164-167: `n_freq_bins = dataOpts["num_mels"]` inside a
`try`, falling back to `dataOpts["n_freq_bins"]` on `KeyError`. -/
def reqBins (d : DataOpts) : Option ℕ :=
  match d.num_mels with
  | some v => some v
  | none => d.n_freq_bins

/-- Lines 160-173: the configuration keys are read from `dataOpts`; a read
of a missing key raises `KeyError`. In Python the first missing key raises;
since every such failure is the same `KeyError`, the whole sequence of reads
is represented as one match that succeeds exactly when every required key
resolves. -/
def loadConfig (d : DataOpts) : Except PredictError FrontendConfig :=
  match d.sr, d.hop_length, d.n_fft, reqBins d, d.fmin, d.fmax,
      d.freq_compression, d.min_level_db, d.ref_level_db with
  | some sr, some hl, some nf, some bins, some lo, some hi, some fc,
      some mld, some rld => .ok ⟨sr, hl, nf, bins, lo, hi, fc, mld, rld⟩
  | _, _, _, _, _, _, _, _, _ => .error .keyError

/-- The whole run: the configuration is read (lines 160-183) before the
per-file loop starts (line 187), so a configuration failure yields an error
with no per-file results at all. -/
def runPrediction (d : DataOpts) (files : List AudioFileInput) :
    Except PredictError (List (List ℕ)) :=
  match loadConfig d with
  | .error e => .error e
  | .ok _ => processFiles files

/-! ## Display-time rounding (predict.py line 229) -/

/-- Round a rational to the nearest integer, ties to the even integer, as
Python's builtin `round` does. -/
def roundHalfEven (x : ℚ) : ℤ :=
  if x - ⌊x⌋ < 1/2 then ⌊x⌋
  else if 1/2 < x - ⌊x⌋ then ⌊x⌋ + 1
  else if ⌊x⌋ % 2 = 0 then ⌊x⌋ else ⌊x⌋ + 1

/-- Python `round(x, 2)` as used on line 229: round to 2 decimal places. -/
def round2 (x : ℚ) : ℚ := (roundHalfEven (100 * x) : ℚ) / 100

/-- Line 229: the displayed time `round(t / sr, 2)` for a sample offset
`t` and sample rate `sr`. -/
def displayTime (offset sr : ℕ) : ℚ := round2 ((offset : ℚ) / (sr : ℚ))

/-- Modelled from the spec: recompute the displayed time from the stored
offset and the sample rate and apply the same rounding (the round-trip of
the spec's §8 round-trip property). -/
def recomputeTime (offset sr : ℕ) : ℚ := round2 ((offset : ℚ) / (sr : ℚ))

/-! ## Parallel batch fetching (predict.py lines 202-207, 214-218) -/

/-- The batch results in index order: batch `i` carries the pure fetch
result `fetch i`. -/
def inOrderFetches {α : Type} (fetch : ℕ → α) (n : ℕ) : List (ℕ × α) :=
  (List.range n).map (fun i => (i, fetch i))

/-- Modelled from the spec: the data loader (lines 202-207) hands each
worker its batch indices, collects the finished batches in whatever order
the workers complete them (`completed`), and delivers them to the consumer
loop (line 215) strictly in batch-index order, by looking the next expected
index up among the finished batches. -/
def reassemble {α : Type} (n : ℕ) (completed : List (ℕ × α)) : List α :=
  (List.range n).filterMap (fun i => completed.lookup i)

/-- The output of a single-worker (sequential) run: batch results in fetch
order. -/
def sequentialOutput {α : Type} (fetch : ℕ → α) (n : ℕ) : List α :=
  (List.range n).map fetch

/-! ## Batched enumeration of windows (predict.py lines 215-222) -/

/-- Number of batches the data loader yields for `numW` windows at batch
size `B` (all batches full except possibly the last). -/
def numBatches (numW B : ℕ) : ℕ := (numW + B - 1) / B

/-- Size of batch `i` (`out.shape[0]` on line 220): `B` for every batch
before the last, the remainder for the last. -/
def batchLen (numW B i : ℕ) : ℕ := min B (numW - i * B)

/-- The per-window values emitted by the nested loops of lines 215-222:
for batch `i` and batch position `n`, the window value at the reconstructed
global index `i * B + n`. -/
def batchedRecords {α : Type} (f : ℕ → α) (numW B : ℕ) : List α :=
  (List.range (numBatches numW B)).flatMap
    (fun i => (List.range (batchLen numW B i)).map (fun n => f (i * B + n)))

/-- The `(t_start, t_end)` pair of the window with global index `k`
(lines 221-222). -/
def windowRecord (hop seqLen nFrames : ℕ) : ℕ → ℕ × ℕ :=
  fun k => (windowStart k hop, windowEnd k hop seqLen nFrames)

/-- A `dataOpts` dictionary whose `sr` key is absent (and whose
`n_freq_bins` key is also absent, `num_mels` present). -/
def optsMissingSr : DataOpts :=
  ⟨none, some 1, some 2, some 3, none, some 4, some 5, some 6, some 7, some 8⟩

/-- A complete `dataOpts` dictionary with both `num_mels` and
`n_freq_bins` present. -/
def optsFull : DataOpts :=
  ⟨some 1, some 2, some 3, some 4, some 5, some 6, some 7, some 8, some 9,
    some 10⟩

/-- The frontend configuration `loadConfig` builds from `optsFull`:
`n_freq_bins` is taken from `num_mels` (= 4), not from the `n_freq_bins`
key (= 5). -/
def cfgFull : FrontendConfig := ⟨1, 2, 3, 4, 6, 7, 8, 9, 10⟩

/-- A complete `dataOpts` dictionary without `num_mels`, so that
`n_freq_bins` comes from the fallback key. -/
def optsFallback : DataOpts :=
  ⟨some 1, some 2, some 3, none, some 4, some 5, some 6, some 7, some 8,
    some 9⟩

/-- The frontend configuration `loadConfig` builds from `optsFallback`. -/
def cfgFallback : FrontendConfig := ⟨1, 2, 3, 4, 5, 6, 7, 8, 9⟩

/-! ## Theorems -/

/-- Rounding to the nearest integer (ties to even) moves a rational by at
most `1/2`. -/
theorem roundHalfEven_close (x : ℚ) : |(roundHalfEven x : ℚ) - x| ≤ 1/2 := by
  have h1 : ((⌊x⌋ : ℤ) : ℚ) ≤ x := Int.floor_le x
  have h2 : x < ⌊x⌋ + 1 := Int.lt_floor_add_one x
  unfold roundHalfEven
  split
  · rename_i h
    rw [abs_le]
    constructor <;> linarith
  · split
    · rename_i h h3
      rw [abs_le]
      push_cast
      constructor <;> linarith
    · rename_i h h3
      split <;> (rw [abs_le]; push_cast; constructor <;> linarith)

/-- Rounding to two decimal places moves a rational by at most `1/200`. -/
theorem round2_close (x : ℚ) : |round2 x - x| ≤ 1/200 := by
  have h := roundHalfEven_close (100 * x)
  unfold round2
  rw [abs_le] at h ⊢
  constructor <;> linarith

/-- C1: for every window index `k = i * batch_size + n` the start offset is
`k * hop` and the end offset is `min(k * hop + sequence_len - 1, n_frames - 1)`;
concretely, for `n_frames = 100000`, `sequence_len = 100000`, `hop = 50000`
there are 2 windows, window 0 spans `[0, 99999]` and window 1 spans
`[50000, 99999]`. -/
theorem window_offsets_correct (i B n hop seqLen nFrames : ℕ) :
    tStart i B n hop = windowStart (i * B + n) hop ∧
    tEnd (tStart i B n hop) seqLen nFrames =
      min (windowStart (i * B + n) hop + seqLen - 1) (nFrames - 1) ∧
    numWindows 100000 50000 = 2 ∧
    windowStart 0 50000 = 0 ∧ windowEnd 0 50000 100000 100000 = 99999 ∧
    windowStart 1 50000 = 50000 ∧ windowEnd 1 50000 100000 100000 = 99999 := by
  refine ⟨rfl, rfl, ?_, ?_, ?_, ?_, ?_⟩ <;> decide

/-- C2: for every `n_frames ≥ 1` and `hop ≥ 1` the number of windows is
`max(floor(n_frames / hop), 1)`, hence at least one window is emitted even
for short recordings, and the last window's end offset never exceeds
`n_frames - 1`. -/
theorem num_windows_correct (nFrames hop seqLen : ℕ)
    (_hn : 1 ≤ nFrames) (_hh : 1 ≤ hop) :
    numWindows nFrames hop = max (nFrames / hop) 1 ∧
    1 ≤ numWindows nFrames hop ∧
    windowEnd (numWindows nFrames hop - 1) hop seqLen nFrames ≤ nFrames - 1 := by
  refine ⟨rfl, le_max_right _ _, ?_⟩
  exact min_le_right _ _

/-- Witness for C2 at `n_frames = 100000`, `hop = 50000`, `seqLen = 100000`. -/
theorem num_windows_correct_witness :
    numWindows 100000 50000 = max (100000 / 50000) 1 ∧
    1 ≤ numWindows 100000 50000 ∧
    windowEnd (numWindows 100000 50000 - 1) 50000 100000 100000 ≤ 100000 - 1 :=
  num_windows_correct 100000 50000 100000 (by decide) (by decide)

/-- C3: the decision is `p ≥ threshold` with an inclusive boundary
(`p = threshold` yields a positive decision) and is monotone
non-decreasing in `p` for a fixed threshold. -/
theorem decision_inclusive_monotone (p q t : ℚ)
    (_hp0 : 0 ≤ p) (_hp1 : p ≤ 1) (_hq0 : 0 ≤ q) (_hq1 : q ≤ 1)
    (_ht0 : 0 ≤ t) (_ht1 : t ≤ 1) :
    (p = t → pred p t = 1) ∧ (p ≤ q → pred p t ≤ pred q t) := by
  constructor
  · intro h
    simp [pred, h]
  · intro hpq
    unfold pred
    split
    · rename_i h1
      rw [if_pos (le_trans h1 hpq)]
    · exact Nat.zero_le _

/-- Witness for C3 at `p = 0`, `q = 1`, `t = 0`. -/
theorem decision_inclusive_monotone_witness :
    ((0 : ℚ) = 0 → pred 0 0 = 1) ∧ ((0 : ℚ) ≤ 1 → pred 0 0 ≤ pred 1 0) :=
  decision_inclusive_monotone 0 1 0
    (by decide) (by decide) (by decide) (by decide) (by decide) (by decide)

/-- C6 counterexample: with `n_frames = 5`, `sequence_len = 3`, `hop = 1`
there are 5 windows; window 3 is not the final window (the final index is
4), yet its length is `4 - 3 + 1 = 2 ≠ 3`: a window other than the final
one fails the claimed equality. -/
theorem window_length_eq_counterexample :
    numWindows 5 1 = 5 ∧ 3 + 1 < numWindows 5 1 ∧
    windowStart 3 1 = 3 ∧ windowEnd 3 1 3 5 = 4 ∧
    windowEnd 3 1 3 5 - windowStart 3 1 + 1 ≠ 3 := by
  refine ⟨?_, ?_, ?_, ?_, ?_⟩ <;> decide

/-- C6 (amended): every window has `end - start + 1 ≤ sequence_len`;
equality holds for every window that fits entirely in the recording
(`start + sequence_len ≤ n_frames`), and in particular, whenever
`sequence_len ≤ 2 * hop` (as with the default 2 s windows over a 1 s hop),
for every window except possibly the final one. -/
theorem window_length_le_amended (i hop seqLen nFrames : ℕ)
    (_hh : 1 ≤ hop) (hs : 1 ≤ seqLen) (_hn : 1 ≤ nFrames)
    (_hi : i < numWindows nFrames hop) :
    windowEnd i hop seqLen nFrames - windowStart i hop + 1 ≤ seqLen ∧
    (windowStart i hop + seqLen ≤ nFrames →
      windowEnd i hop seqLen nFrames - windowStart i hop + 1 = seqLen) ∧
    (seqLen ≤ 2 * hop → i + 1 < numWindows nFrames hop →
      windowEnd i hop seqLen nFrames - windowStart i hop + 1 = seqLen) := by
  refine ⟨?_, ?_, ?_⟩
  · unfold windowEnd windowStart tEnd
    generalize i * hop = s
    omega
  · unfold windowEnd windowStart tEnd
    generalize i * hop = s
    omega
  · intro h2 hi2
    have h3 : i + 2 ≤ nFrames / hop := by
      unfold numWindows at hi2
      omega
    have h4 : (i + 2) * hop ≤ nFrames :=
      le_trans (Nat.mul_le_mul_right hop h3) (Nat.div_mul_le_self nFrames hop)
    have h5 : (i + 2) * hop = i * hop + 2 * hop := by ring
    unfold windowEnd windowStart tEnd
    generalize hgen : i * hop = s
    rw [hgen] at h5
    omega

/-- Witness for the amended C6 at `i = 0`, `hop = 2`, `sequence_len = 3`,
`n_frames = 10`. -/
theorem window_length_le_amended_witness :
    windowEnd 0 2 3 10 - windowStart 0 2 + 1 ≤ 3 ∧
    (windowStart 0 2 + 3 ≤ 10 → windowEnd 0 2 3 10 - windowStart 0 2 + 1 = 3) ∧
    (3 ≤ 2 * 2 → 0 + 1 < numWindows 10 2 →
      windowEnd 0 2 3 10 - windowStart 0 2 + 1 = 3) :=
  window_length_le_amended 0 2 3 10 (by decide) (by decide) (by decide)
    (by decide)

/-- C5 counterexample: a batch of two files whose first file is invalid.
The run aborts with the error and the valid second file is never processed,
so its records `[7]` appear in no output — contrary to the claim that
processing continues with the next file. -/
theorem per_file_error_not_caught :
    processFiles [AudioFileInput.invalid, AudioFileInput.valid [7]] =
      Except.error PredictError.invalidAudio ∧
    processFiles [AudioFileInput.invalid, AudioFileInput.valid [7]] ≠
      Except.ok [[7]] := by
  refine ⟨rfl, ?_⟩
  intro h
  simp [processFiles, loadAudio] at h

/-- C5 (amended): a per-file failure is not caught: however many files were
already processed successfully, an `InvalidAudioError` on the next file
aborts the entire run with that error, and no result list (in particular
none for the remaining files) is produced; an error-free list of files is
processed completely. -/
theorem per_file_error_aborts_run (pre : List (List ℕ))
    (rest : List AudioFileInput) :
    processFiles (pre.map AudioFileInput.valid ++ AudioFileInput.invalid :: rest) =
      Except.error PredictError.invalidAudio ∧
    processFiles (pre.map AudioFileInput.valid) = Except.ok pre := by
  constructor
  · induction pre with
    | nil => rfl
    | cons x xs ih =>
      simp only [List.map_cons, List.cons_append, processFiles, loadAudio,
        List.append_eq]
      rw [ih]
  · induction pre with
    | nil => rfl
    | cons x xs ih =>
      simp only [List.map_cons, processFiles, loadAudio]
      rw [ih]

/-- C7: the displayed times are `round(start/sr, 2)` and `round(end/sr, 2)`;
recomputing them from the offsets and the sample rate with the same rounding
reproduces the displayed values exactly; the rounding shifts the true time
by at most `1/200` s (display only); concrete checks at `sr = 44100`,
`sr = 16000` and two further rates. -/
theorem display_time_roundtrip (s e sr : ℕ) :
    (displayTime s sr, displayTime e sr) =
      (recomputeTime s sr, recomputeTime e sr) ∧
    |displayTime s sr - (s : ℚ) / (sr : ℚ)| ≤ 1/200 ∧
    displayTime 0 44100 = 0 ∧
    displayTime 99999 44100 = 227/100 ∧
    displayTime 99999 16000 = 625/100 ∧
    displayTime 1 8 = 12/100 ∧
    displayTime 50000 50000 = 1 := by
  refine ⟨rfl, round2_close _, ?_, ?_, ?_, ?_, ?_⟩ <;>
    norm_num [displayTime, round2, roundHalfEven]

/-- C9: if any of the required configuration keys `sr`, `n_fft`,
`num_mels`/`n_freq_bins`, `fmin`, `fmax`, `freq_compression` is absent, the
run fails with `KeyError` before any audio file is processed (no per-file
results exist); the frequency-bin requirement is satisfied by either key,
`num_mels` taking precedence over `n_freq_bins`. -/
theorem missing_config_key_fatal (d : DataOpts) (files : List AudioFileInput) :
    ((d.sr = none ∨ d.n_fft = none ∨
      (d.num_mels = none ∧ d.n_freq_bins = none) ∨ d.fmin = none ∨
      d.fmax = none ∨ d.freq_compression = none) →
      runPrediction d files = Except.error PredictError.keyError) ∧
    (∀ v, d.num_mels = some v → ∀ cfg, loadConfig d = Except.ok cfg →
      cfg.n_freq_bins = v) ∧
    (∀ w, d.num_mels = none → d.n_freq_bins = some w →
      ∀ cfg, loadConfig d = Except.ok cfg → cfg.n_freq_bins = w) := by
  refine ⟨?_, ?_, ?_⟩
  · intro h
    have hc : loadConfig d = Except.error PredictError.keyError := by
      unfold loadConfig
      split
      · rcases h with h|h|⟨h1,h2⟩|h|h|h <;> simp_all [reqBins]
      · rfl
    unfold runPrediction
    rw [hc]
  · intro v hv cfg hok
    unfold loadConfig at hok
    split at hok
    · cases hok
      simp_all [reqBins]
    · exact Except.noConfusion hok
  · intro w hnm hnfb cfg hok
    unfold loadConfig at hok
    split at hok
    · cases hok
      simp_all [reqBins]
    · exact Except.noConfusion hok

/-- Witness for C9: with `sr` absent the run errors out; with complete
configurations, `num_mels` (here 4) wins over `n_freq_bins`, and is fallen
back from when absent. -/
theorem missing_config_key_fatal_witness :
    runPrediction optsMissingSr [] = Except.error PredictError.keyError ∧
    cfgFull.n_freq_bins = 4 ∧ cfgFallback.n_freq_bins = 4 :=
  ⟨(missing_config_key_fatal optsMissingSr []).1 (Or.inl rfl),
   (missing_config_key_fatal optsFull []).2.1 4 rfl cfgFull rfl,
   (missing_config_key_fatal optsFallback []).2.2 4 rfl rfl cfgFallback rfl⟩

/-- Looking a key up in an association list with pairwise-distinct keys
finds the unique associated value. -/
theorem lookup_eq_of_mem {α : Type} :
    ∀ (l : List (ℕ × α)) (i : ℕ) (v : α),
      (l.map Prod.fst).Nodup → (i, v) ∈ l → l.lookup i = some v := by
  intro l
  induction l with
  | nil => intro i v _ hm; cases hm
  | cons p t ih =>
    intro i v hnd hm
    obtain ⟨k, w⟩ := p
    rw [List.map_cons, List.nodup_cons] at hnd
    by_cases hk : k = i
    · subst hk
      rcases List.mem_cons.mp hm with heq | hmt
      · injection heq with hfst hsnd
        simp [List.lookup, hsnd]
      · exact absurd (List.mem_map.mpr ⟨(k, v), hmt, rfl⟩) hnd.1
    · have hbeq : (i == k) = false := beq_eq_false_iff_ne.mpr (Ne.symm hk)
      rw [List.lookup, hbeq]
      rcases List.mem_cons.mp hm with heq | hmt
      · injection heq with hfst hsnd
        exact absurd hfst.symm hk
      · exact ih i v hnd.2 hmt

/-- Index-ordered reassembly of any permutation of the in-order batch
results recovers the sequential output. -/
theorem reassemble_perm_eq {α : Type} (fetch : ℕ → α) (n : ℕ)
    (completed : List (ℕ × α))
    (hperm : completed.Perm (inOrderFetches fetch n)) :
    reassemble n completed = sequentialOutput fetch n := by
  have hkeys : (completed.map Prod.fst).Nodup := by
    have h1 : (completed.map Prod.fst).Perm
        ((inOrderFetches fetch n).map Prod.fst) := hperm.map _
    have h2 : (inOrderFetches fetch n).map Prod.fst = List.range n := by
      simp [inOrderFetches, List.map_map, Function.comp_def]
    rw [h2] at h1
    exact h1.nodup_iff.mpr (List.nodup_range n)
  have hlook : ∀ i ∈ List.range n, completed.lookup i = some (fetch i) := by
    intro i hi
    exact lookup_eq_of_mem completed i (fetch i) hkeys
      (hperm.mem_iff.mpr (List.mem_map.mpr ⟨i, hi, rfl⟩))
  unfold reassemble sequentialOutput
  have haux : ∀ L : List ℕ, (∀ i ∈ L, completed.lookup i = some (fetch i)) →
      L.filterMap (fun i => completed.lookup i) = L.map fetch := by
    intro L
    induction L with
    | nil => intro _; rfl
    | cons a t iht =>
      intro h
      rw [List.filterMap_cons, List.map_cons, h a (List.mem_cons_self a t),
        iht (fun i hi => h i (List.mem_cons_of_mem a hi))]
  exact haux _ hlook

/-- C8: whatever order the parallel fetch workers finish their batches in
(any permutation of the in-order results — with one worker this is the
in-order list itself), the loader's index-ordered delivery yields exactly
the sequential, window-index-ascending output, so the emitted records are
identical to a `num_workers = 1` run. -/
theorem parallel_fetch_order_invariant {α : Type} (fetch : ℕ → α) (n : ℕ)
    (completed : List (ℕ × α))
    (hperm : completed.Perm (inOrderFetches fetch n)) :
    reassemble n completed = reassemble n (inOrderFetches fetch n) ∧
    reassemble n completed = sequentialOutput fetch n := by
  have h1 := reassemble_perm_eq fetch n completed hperm
  have h2 := reassemble_perm_eq fetch n (inOrderFetches fetch n) (List.Perm.refl _)
  exact ⟨h1.trans h2.symm, h1⟩

/-- Witness for C8 with 3 batches finished in the order 1, 0, 2. -/
theorem parallel_fetch_order_invariant_witness :
    reassemble 3 [(1, (20 : ℕ)), (0, 10), (2, 30)] =
      reassemble 3 (inOrderFetches (fun i => 10 * (i + 1)) 3) ∧
    reassemble 3 [(1, (20 : ℕ)), (0, 10), (2, 30)] =
      sequentialOutput (fun i => 10 * (i + 1)) 3 :=
  parallel_fetch_order_invariant (fun i => 10 * (i + 1)) 3
    [(1, 20), (0, 10), (2, 30)] (by decide)

/-- Taylor bounds on `exp 0.1`. -/
theorem exp_tenth_bounds : (1.1047 : ℝ) ≤ Real.exp 0.1 ∧
    Real.exp 0.1 ≤ 1.10523 := by
  have hb := Real.exp_bound (x := (0.1 : ℝ)) (by rw [abs_of_nonneg] <;> norm_num)
    (n := 3) (by norm_num)
  rw [Finset.sum_range_succ, Finset.sum_range_succ, Finset.sum_range_succ,
    Finset.sum_range_zero] at hb
  norm_num [Nat.factorial] at hb
  rw [abs_of_nonneg (by norm_num : (0:ℝ) ≤ (1:ℝ)/10)] at hb
  norm_num at hb ⊢
  rw [abs_le] at hb
  constructor <;> linarith [hb.1, hb.2]

/-- Numeric bounds on `exp 1.1`, the score difference of the scenario. -/
theorem exp_one_tenth_bounds : (3 : ℝ) < Real.exp 1.1 ∧
    Real.exp 1.1 < 3.03 := by
  have h01 := exp_tenth_bounds
  have hsplit : Real.exp 1.1 = Real.exp 1 * Real.exp 0.1 := by
    rw [← Real.exp_add]; norm_num
  constructor
  · rw [hsplit]
    nlinarith [Real.exp_one_gt_d9, h01.1, Real.exp_pos (0.1 : ℝ)]
  · rw [hsplit]
    nlinarith [Real.exp_one_lt_d9, h01.2, Real.exp_pos (0.1 : ℝ),
      Real.exp_pos (1 : ℝ)]

/-- C4: for the two-class raw score vector `[0.2, 1.3]` the softmax
probability of the positive class is within `0.001` of `0.751`; at
threshold `0.5` the decision is 1, at threshold `0.8` it is 0. -/
theorem softmax_prob_example :
    predReal (softmaxPos 0.2 1.3) 0.5 = 1 ∧
    predReal (softmaxPos 0.2 1.3) 0.8 = 0 ∧
    |softmaxPos 0.2 1.3 - 0.751| < 0.001 := by
  have hp2 : (0:ℝ) < Real.exp 0.2 := Real.exp_pos _
  have hp3 : (0:ℝ) < Real.exp 1.3 := Real.exp_pos _
  have hpos : (0:ℝ) < Real.exp 0.2 + Real.exp 1.3 := by linarith
  have h11 := exp_one_tenth_bounds
  have hsplit : Real.exp 1.3 = Real.exp 0.2 * Real.exp 1.1 := by
    rw [← Real.exp_add]; norm_num
  have hle : Real.exp 0.2 ≤ Real.exp 1.3 := Real.exp_le_exp.mpr (by norm_num)
  refine ⟨?_, ?_, ?_⟩
  · unfold predReal
    rw [if_pos]
    unfold softmaxPos
    rw [le_div_iff₀ hpos]
    linarith
  · unfold predReal
    rw [if_neg]
    unfold softmaxPos
    rw [not_le, div_lt_iff₀ hpos]
    nlinarith [h11.2, hsplit, hp2]
  · rw [abs_lt]
    constructor
    · unfold softmaxPos
      rw [lt_sub_iff_add_lt, lt_div_iff₀ hpos]
      nlinarith [h11.1, hsplit, hp2]
    · unfold softmaxPos
      rw [sub_lt_iff_lt_add, div_lt_iff₀ hpos]
      nlinarith [h11.2, hsplit, hp2]

/-- Batched enumeration with any positive batch size emits exactly the
sequential per-window values: the reconstructed index `i * B + n` runs
through `0, 1, 2, …` in order. -/
theorem batchedRecords_eq_map {α : Type} (B : ℕ) (hB : 1 ≤ B) :
    ∀ (numW : ℕ) (f : ℕ → α),
      batchedRecords f numW B = (List.range numW).map f := by
  intro numW
  induction numW using Nat.strong_induction_on with
  | _ r ih =>
    intro f
    rcases Nat.eq_zero_or_pos r with hr | hr
    · subst hr
      have h0 : numBatches 0 B = 0 := by
        show (0 + B - 1) / B = 0
        rw [Nat.zero_add]
        exact Nat.div_eq_of_lt (by omega)
      unfold batchedRecords
      rw [h0]
      rfl
    · have hnb : numBatches r B = numBatches (r - B) B + 1 := by
        unfold numBatches
        have hA : (r + B - 1) / B = (r - 1) / B + 1 := by
          rw [show r + B - 1 = (r - 1) + B by omega,
            Nat.add_div_right _ (by omega)]
        rcases le_or_lt r B with h | h
        · have hA2 : (r - 1) / B = 0 := Nat.div_eq_of_lt (by omega)
          have hB2 : (r - B + B - 1) / B = 0 := by
            rw [show r - B + B - 1 = B - 1 by omega]
            exact Nat.div_eq_of_lt (by omega)
          omega
        · have hB2 : (r - B + B - 1) / B = (r - 1) / B := by
            rw [show r - B + B - 1 = r - 1 by omega]
          omega
      unfold batchedRecords
      rw [hnb, List.range_succ_eq_map, List.flatMap_cons, List.flatMap_map]
      have hg0 : (List.range (batchLen r B 0)).map (fun n => f (0 * B + n)) =
          (List.range (min B r)).map f := by
        unfold batchLen
        simp
      have hg1 : (fun i => (List.range (batchLen r B (i.succ))).map
            (fun n => f (i.succ * B + n))) =
          (fun i => (List.range (batchLen (r - B) B i)).map
            (fun n => (fun k => f (k + B)) (i * B + n))) := by
        funext i
        have e5 : batchLen r B (i + 1) = batchLen (r - B) B i := by
          unfold batchLen
          have h6 : (i + 1) * B = i * B + B := by ring
          rw [h6]
          generalize i * B = s
          omega
        rw [show i.succ = i + 1 from rfl, e5]
        congr 1
        funext n
        congr 1
        ring
      rw [hg0, hg1]
      have hrec : (List.range (numBatches (r - B) B)).flatMap
          (fun i => (List.range (batchLen (r - B) B i)).map
            (fun n => (fun k => f (k + B)) (i * B + n))) =
          batchedRecords (fun k => f (k + B)) (r - B) B := rfl
      rw [hrec, ih (r - B) (by omega) (fun k => f (k + B))]
      rcases le_or_lt r B with h | h
      · rw [min_eq_right h, show r - B = 0 by omega]
        simp
      · rw [min_eq_left h.le]
        conv_rhs => rw [show r = B + (r - B) by omega, List.range_add,
          List.map_append, List.map_map]
        have hfun : (fun k => f (k + B)) = (f ∘ fun x => B + x) := by
          funext k
          show f (k + B) = f (B + k)
          rw [Nat.add_comm]
        rw [hfun]

/-- C10: for every batch size `B ≥ 1`, with the windows partitioned into
contiguous batches (all of size `B` except possibly the last), the
reconstructed global index `i * B + n` enumerates the sequential window
indices, so the emitted `(t_start, t_end)` records coincide with those of a
`batch_size = 1` run. -/
theorem batch_size_invariant (hop seqLen nFrames numW B : ℕ) (hB : 1 ≤ B) :
    batchedRecords (windowRecord hop seqLen nFrames) numW B =
      batchedRecords (windowRecord hop seqLen nFrames) numW 1 := by
  rw [batchedRecords_eq_map B hB, batchedRecords_eq_map 1 le_rfl]

/-- Witness for C10 at `hop = 1`, `sequence_len = 2`, `n_frames = 5`,
5 windows, batch size 2. -/
theorem batch_size_invariant_witness :
    batchedRecords (windowRecord 1 2 5) 5 2 =
      batchedRecords (windowRecord 1 2 5) 5 1 :=
  batch_size_invariant 1 2 5 5 2 (by decide)

end OrcaSpot
